import Mathlib

/-!
Verification development for the Entra ID connector-customizer repository.

The TypeScript sources are shallowly embedded: JavaScript values are modelled
by the inductive `JVal` (with `undefined` for JavaScript `undefined`), payload
objects by association lists of string-keyed fields, the per-invocation
cache (`inputCache` in `customOperations.ts` / `operations/setSponsors.ts`)
by an explicit association list threaded through the operations, and
asynchronous Microsoft Graph calls by an explicit trace of `ApiCall` values
(the operations under scrutiny never branch on a Graph response, except for
the sponsor fetch, which is passed in as an explicit oracle).
-/

namespace EntraIdPlus

/-- JavaScript runtime values, as used by the connector payloads.
`undefined` is JavaScript `undefined` (distinct from `null`). -/
inductive JVal where
  | undefined
  | null
  | str (s : String)
  | num (n : Int)
  | bool (b : Bool)
  | arr (items : List JVal)
  | obj (fields : List (String × JVal))

/-- Object field list (in insertion order, keys unique by construction). -/
abbrev Obj := List (String × JVal)

/-- JavaScript property read on a field list: `o[k]`, `undefined` if missing. -/
def jget (o : Obj) (k : String) : JVal :=
  match o with
  | [] => .undefined
  | (k', v) :: rest => if k' = k then v else jget rest k

/-- Optional-chaining property read `v?.[k]`: `undefined` unless `v` is an
object carrying the key (property reads on primitives yield `undefined` for
the string keys used by this code base). -/
def oget (v : JVal) (k : String) : JVal :=
  match v with
  | .obj fields => jget fields k
  | _ => .undefined

/-- Tests whether `v` is nullish (JavaScript `v == null`, i.e. `null` or `undefined`). -/
def isNullish (v : JVal) : Bool :=
  match v with
  | .undefined => true
  | .null => true
  | _ => false

/-- JavaScript `v != null`. -/
def notNullish (v : JVal) : Bool := !(isNullish v)

/-- Tests `v === undefined`. -/
def checkIsUndefined (v : JVal) : Bool :=
  match v with
  | .undefined => true
  | _ => false

/-- JavaScript truthiness. -/
def jsTruthy (v : JVal) : Bool :=
  match v with
  | .undefined => false
  | .null => false
  | .str s => !(s = "")
  | .num n => !(n = 0)
  | .bool b => b
  | .arr _ => true
  | .obj _ => true

/-- JavaScript nullish coalescing `a ?? b`. -/
def nvl (a b : JVal) : JVal := if isNullish a then b else a

/-- Strict string equality `v === s` for a value against a string literal. -/
def isStrVal (v : JVal) (s : String) : Bool :=
  match v with
  | .str t => t = s
  | _ => false

/-- Does the field list carry key `k`? -/
def hasField (o : Obj) (k : String) : Bool := o.any (fun p => p.1 = k)

/-- JavaScript `'k' in v` (membership test on an object). -/
def hasFieldJ (v : JVal) (k : String) : Bool :=
  match v with
  | .obj fields => hasField fields k
  | _ => false

/-- The field list contributed by spreading `v` into an object literal:
objects contribute their fields, arrays and strings contribute index keys,
primitives contribute nothing (`{...5} = {}`). -/
def spreadFields (v : JVal) : Obj :=
  match v with
  | .obj fields => fields
  | .arr items => (items.enum).map (fun p => (toString p.1, p.2))
  | .str s => (s.data.enum).map (fun p => (toString p.1, .str (String.mk [p.2])))
  | _ => []

/-- JavaScript object spread `{...a, ...b}` on field lists: `a`'s keys in
order (values overridden by `b` where `b` has the key), then `b`'s new keys. -/
def mergeObj (a b : Obj) : Obj :=
  a.map (fun p => (p.1, if hasField b p.1 then jget b p.1 else p.2)) ++
    b.filter (fun p => !(hasField a p.1))

/-- JavaScript `{...a, ...b}` on arbitrary values. -/
def spread2 (a b : JVal) : JVal := .obj (mergeObj (spreadFields a) (spreadFields b))

/-- Computes `{...base, k: v}`, the update idiom used by `stripSponsorsFromInput`. -/
def setSpread (base : JVal) (k : String) (v : JVal) : JVal :=
  spread2 base (.obj [(k, v)])

/-- Substring test on character lists (`needle` starts `hay`). -/
def leadsWith : List Char → List Char → Bool
  | [], _ => true
  | _ :: _, [] => false
  | a :: as, b :: bs => a = b && leadsWith as bs

/-- JavaScript `s.includes(sub)`. -/
def containsSubstr (s sub : String) : Bool :=
  (s.data.tails).any (fun t => leadsWith sub.data t)

/-- JavaScript `s.startsWith(pre)`. -/
def strStartsWith (s pre : String) : Bool := leadsWith pre.data s.data

-- ---------------------------------------------------------------------------
-- Invocation context and per-invocation cache
-- (src/customOperations.ts 61-85 / src/operations/setSponsors.ts 12-36)
-- ---------------------------------------------------------------------------

/-- The SDK invocation context, restricted to the fields this code reads:
`commandType` plus the three correlation-identifier candidates probed by
`cacheKey` (`invocationId ?? requestId ?? id`). -/
structure Ctx where
  commandType : String
  invocationId : Option String := none
  requestId : Option String := none
  id : Option String := none

/-- Models `cacheKey(context)`: `invocationId ?? requestId ?? id`. -/
def cacheKey (context : Ctx) : Option String :=
  context.invocationId.orElse (fun _ => context.requestId.orElse (fun _ => context.id))

/-- Truthiness of the derived key (`if (!key) ...` treats `''` as absent). -/
def keyTruthy (key : Option String) : Bool :=
  match key with
  | none => false
  | some s => !(s = "")

/-- The pending sponsor change `{ op, upn }` deferred by a create command. -/
structure PendingSponsor where
  op : JVal
  upn : JVal

/-- Models `CachedInput`: data cached by the before operation for the after phase.
Absent optional fields are `undefined`; `pendingSponsor` is `none` when absent. -/
structure CachedInput where
  userId : JVal := .undefined
  identity : JVal := .undefined
  key : JVal := .undefined
  pendingSponsor : Option PendingSponsor := none
  setUpn : JVal := .undefined

/-- The module-level `inputCache : Map<string, CachedInput>`, made explicit. -/
abbrev Cache := List (String × CachedInput)

/-- Models `Map.get(key)`. -/
def cacheGet (cache : Cache) (k : String) : Option CachedInput :=
  match cache with
  | [] => none
  | (k', v) :: rest => if k' = k then some v else cacheGet rest k

/-- Models `Map.delete(key)`. -/
def cacheErase (cache : Cache) (k : String) : Cache :=
  cache.filter (fun p => !(p.1 = k))

/-- Models `Map.set(key, value)` (upsert; ordering is not observable via get/delete). -/
def cacheSet (cache : Cache) (k : String) (v : CachedInput) : Cache :=
  (k, v) :: cacheErase cache k

/-- Models `getCachedInput(context)`: derives the key, reads and deletes the entry
(one-time read). Returns the read result together with the updated cache. -/
def getCachedInput (context : Ctx) (cache : Cache) : Option CachedInput × Cache :=
  match cacheKey context with
  | none => (none, cache)
  | some k =>
    if k = "" then (none, cache)
    else (cacheGet cache k, cacheErase cache k)

-- ---------------------------------------------------------------------------
-- Downstream Microsoft Graph calls (src/entraid-client.ts), as a trace
-- ---------------------------------------------------------------------------

/-- One asynchronous `EntraIdClient` method invocation. -/
inductive ApiCall where
  | getSponsorsForGuest (upn : JVal)
  | setSponsorForUser (userId sponsorUpn : JVal)
  | clearSponsorsForUser (userId : JVal)
  | removeSponsorForUser (userId sponsorId : JVal)

/-- Models the `AttributeChangeOp` enum values from the connector SDK (an external
collaborator): string constants compared with `===`/`!==` by the operations. -/
def attributeChangeOpSet : JVal := .str "set"

/-- Models `AttributeChangeOp.Remove`. -/
def attributeChangeOpRemove : JVal := .str "remove"

-- ---------------------------------------------------------------------------
-- Before operation `handleSponsorUpdate` (src/customOperations.ts 125-216;
-- the same code appears as `preSetSponsors` in src/operations/setSponsors.ts)
-- ---------------------------------------------------------------------------

/-- Does the change entry name the sponsors attribute
(`c.attribute === 'sponsors' || c.attribute === 'attributes.sponsors'`)? -/
def isSponsorsChange (c : JVal) : Bool :=
  isStrVal (oget c "attribute") "sponsors" || isStrVal (oget c "attribute") "attributes.sponsors"

/-- Models `input.changes?.find(c => c.attribute === 'sponsors' || c.attribute ===
'attributes.sponsors')`; `undefined` when `changes` is not an array or no entry
matches. -/
def findSponsorsChange (input : JVal) : JVal :=
  match oget input "changes" with
  | .arr items => (items.find? isSponsorsChange).getD .undefined
  | _ => .undefined

/-- Models `input.attributes?.sponsors ?? input.attributes?.['attributes.sponsors']
?? change?.value`. -/
def sponsorValue (input : JVal) : JVal :=
  nvl (oget (oget input "attributes") "sponsors")
    (nvl (oget (oget input "attributes") "attributes.sponsors")
      (oget (findSponsorsChange input) "value"))

/-- Models `input.identity ?? input.key?.simple?.id ?? input.attributes?.objectId`. -/
def resolvedUserId (input : JVal) : JVal :=
  nvl (oget input "identity")
    (nvl (oget (oget (oget input "key") "simple") "id")
      (oget (oget input "attributes") "objectId"))

/-- Models `isCreateCommand(context)`: `context.commandType?.includes('create')`. -/
def isCreateCommand (context : Ctx) : Bool :=
  containsSubstr context.commandType "create"

/-- First block of `stripSponsorsFromInput`: when the attribute bag carries a
non-null `sponsors` / `attributes.sponsors`, rebuild it without those keys
(the rest-destructuring `{...result, attributes: rest}`). -/
def stripSponsorsAttrs (input : JVal) : JVal :=
  if notNullish (oget (oget input "attributes") "sponsors") ||
      notNullish (oget (oget input "attributes") "attributes.sponsors") then
    match oget input "attributes" with
    | .obj fields =>
      setSpread input "attributes"
        (.obj (fields.filter (fun p => !(p.1 = "sponsors") && !(p.1 = "attributes.sponsors"))))
    | _ => input
  else input

/-- Second block of `stripSponsorsFromInput`: when `changes` is a non-empty
array and filtering out sponsors entries removes anything, replace it with
the filtered array (`{...result, changes: filtered}`). -/
def stripSponsorsChanges (input : JVal) : JVal :=
  match oget input "changes" with
  | .arr items =>
    if items.length ≠ 0 then
      let filtered := items.filter (fun c => !(isSponsorsChange c))
      if filtered.length ≠ items.length then setSpread input "changes" (.arr filtered)
      else input
    else input
  | _ => input

/-- Models `stripSponsorsFromInput(input)`: removes `sponsors` /
`attributes.sponsors` from the attribute bag and from the change list (the
two sequential blocks above, threading `result`). All other fields pass
through. -/
def stripSponsorsFromInput (input : JVal) : JVal :=
  stripSponsorsChanges (stripSponsorsAttrs input)

/-- Models `handleSponsorUpdate(context, input)`: intercepts a sponsors attribute
change; for create commands the Graph write is deferred into the cache, for
other commands it is applied immediately (when a user id resolves) and a
handoff record is cached. Returns the sanitised input, the updated cache and
the trace of Graph calls made. -/
def handleSponsorUpdate (context : Ctx) (cache : Cache) (input : JVal) :
    JVal × Cache × List ApiCall :=
  let change := findSponsorsChange input
  let value := sponsorValue input
  if checkIsUndefined value && !(jsTruthy change) then (input, cache, [])
  else
    let op := nvl (oget change "op") attributeChangeOpSet
    let sponsorUpn :=
      match value with
      | .arr items => (items.head?).getD .undefined
      | v => v
    let userId := resolvedUserId input
    let key := cacheKey context
    if isCreateCommand context then
      let cache :=
        if keyTruthy key then
          cacheSet cache ((key.getD ""))
            { userId := userId, identity := oget input "identity",
              key := oget input "key",
              pendingSponsor := some ⟨op, sponsorUpn⟩ }
        else cache
      (stripSponsorsFromInput input, cache, [])
    else
      let cache :=
        if keyTruthy key && jsTruthy userId then
          cacheSet cache ((key.getD ""))
            { userId := userId, identity := oget input "identity",
              key := oget input "key",
              setUpn := if !(isStrVal op "remove") then sponsorUpn else .undefined }
        else cache
      let calls :=
        if jsTruthy userId then
          if isStrVal op "remove" then [ApiCall.clearSponsorsForUser userId]
          else if jsTruthy sponsorUpn then [ApiCall.setSponsorForUser userId sponsorUpn]
          else []
        else []
      (stripSponsorsFromInput input, cache, calls)

-- ---------------------------------------------------------------------------
-- After operation `setSponsors` (src/operations/setSponsors.ts 192-230; the
-- variant in src/entitlementOperations.ts 145-183 differs only in its user-id
-- resolution). Consumes the cache entry, applies a deferred pending sponsor
-- change, and returns `undefined` (no enrichment value).
-- ---------------------------------------------------------------------------

/-- Models `setSponsors(context, output)`: resolves the user id from
`output.identity` (falling back to the cached record), applies a deferred
pending sponsor change if one was cached, and returns `undefined`. Result:
(enrichment value, Graph call trace, updated cache). -/
def setSponsors (context : Ctx) (cache : Cache) (output : JVal) :
    JVal × List ApiCall × Cache :=
  let userId0 := oget output "identity"
  let (cached, cache) := getCachedInput context cache
  let userId :=
    if !(jsTruthy userId0) &&
        jsTruthy ((cached.map (fun c => c.userId)).getD .undefined) then
      (cached.map (fun c => c.userId)).getD .undefined
    else userId0
  if !(jsTruthy userId) then (.undefined, [], cache)
  else
    match cached with
    | some c =>
      match c.pendingSponsor with
      | some p =>
        if isStrVal p.op "remove" then (.undefined, [ApiCall.clearSponsorsForUser userId], cache)
        else if jsTruthy p.upn then (.undefined, [ApiCall.setSponsorForUser userId p.upn], cache)
        else (.undefined, [], cache)
      | none => (.undefined, [], cache)
    | none => (.undefined, [], cache)

-- ---------------------------------------------------------------------------
-- After operation `getSponsors` (src/operations/getSponsors.ts)
-- ---------------------------------------------------------------------------

/-- Models `getSponsors(context, account)`: when the account carries an attribute
bag and a user id resolves to a non-empty string, fetches the sponsors from Graph (the
fetch oracle `graph` stands for `client.getSponsorsForGuest`) and returns
`undefined` for zero sponsors, the single `userPrincipalName` for one, or the
array of `userPrincipalName`s for several. -/
def getSponsors (graph : String → List JVal) (_context : Ctx) (account : JVal) :
    JVal × List ApiCall :=
  if hasFieldJ account "attributes" && jsTruthy (oget account "attributes") then
    let objectId :=
      nvl (oget (oget account "attributes") "objectId")
        (nvl (oget account "identity")
          (if jsTruthy (oget account "key") && hasFieldJ (oget account "key") "simple" then
            oget (oget (oget account "key") "simple") "id"
          else .undefined))
    match objectId with
    | .str u =>
      if u = "" then (.undefined, [])
      else
      let sponsors := graph u
      let calls := [ApiCall.getSponsorsForGuest (.str u)]
      if sponsors.length = 0 then (.undefined, calls)
      else if sponsors.length = 1 then (oget ((sponsors.head?).getD .undefined) "userPrincipalName", calls)
      else (.arr (sponsors.map (fun x => oget x "userPrincipalName")), calls)
    | _ => (.undefined, [])
  else (.undefined, [])

-- ---------------------------------------------------------------------------
-- The dispatch engine (src/entraid-client.ts 122-289: `matchesPattern`,
-- `runBeforeOperations`, `runAfterOperations` over a `CustomOperationMap`).
-- Operations are modelled as functions that may fail (`Except`, mirroring a
-- rejected promise). The `Log` component mirrors the `logger.debug('...
-- Running before/after operation ...')` line emitted for each entry that
-- actually runs; it makes "the operation ran" observable.
-- ---------------------------------------------------------------------------

/-- An operation function stored in a `CustomOperationMap` (before- and
after-kind share the call shape `(context, payload) => Promise<payload-ish>`). -/
abbrev EngineOp := Ctx → JVal → Except String JVal

/-- A map value: a single operation function or an ordered list of them. -/
inductive OpEntry where
  | one (op : EngineOp)
  | many (ops : List EngineOp)

/-- Models `Array.isArray(operation) ? operation : [operation]`. -/
def OpEntry.toList : OpEntry → List EngineOp
  | .one op => [op]
  | .many ops => ops

/-- Models `CustomOperationMap`, in registration (`Object.entries`) order. -/
abbrev Registry := List (String × OpEntry)

/-- Trace of entries that ran (the pattern key, once per entry-per-item run). -/
abbrev Log := List String

/-- Splits a character list at the first `'.'`, if any. -/
def splitAtFirstDot : List Char → Option (List Char × List Char)
  | [] => none
  | c :: cs =>
    if c = '.' then some ([], cs)
    else
      match splitAtFirstDot cs with
      | some (l, r) => some (c :: l, r)
      | none => none

/-- Splits a registry key into `(hookPattern, attrPattern)`: at the first dot
when the key contains one, otherwise `('*', key)`. -/
def splitPattern (pattern : String) : String × String :=
  match splitAtFirstDot pattern.data with
  | some (l, r) => (String.mk l, String.mk r)
  | none => ("*", pattern)

/-- Glob matching: `'*'` matches any character sequence (it consumes an
arbitrary prefix, i.e. some suffix of the text matches the rest of the
pattern), other characters are literal. -/
def globMatch : List Char → List Char → Bool
  | [], cs => cs.isEmpty
  | '*' :: ps, cs => (cs.tails).any (fun t => globMatch ps t)
  | _ :: _, [] => false
  | p :: ps, c :: cs => p = c && globMatch ps cs

/-- Models `matchesPattern(hook, pattern)`: `'*'` matches everything, otherwise the
pattern is compiled to `^pattern.replace(/\x2a/g, '.*')$` and tested against
the hook. Hook patterns are dot-free (they are the part of a registry key
before the first dot), so the regex is a literal-plus-wildcard glob. -/
def matchesPattern (hook pattern : String) : Bool :=
  if pattern = "*" then true else globMatch pattern.data hook.data

/-- Derives the short attribute name (strips the `attributes.` prefix). -/
def shortAttrName (attrPattern : String) : String :=
  if strStartsWith attrPattern "attributes." then attrPattern.drop ("attributes.".length)
  else attrPattern

/-- The before-engine applicability check (src/entraid-client.ts 174-178):
the attribute is present in `attributes` (short or prefixed key, non-null),
in `primaryData` (non-null), or named by a `changes` entry. -/
def hasAttributeCheck (input : JVal) (attrName attrPattern : String) : Bool :=
  notNullish (oget (oget input "attributes") attrName) ||
  notNullish (oget (oget input "attributes") attrPattern) ||
  notNullish (oget (oget input "primaryData") attrName) ||
  (match oget input "changes" with
   | .arr items =>
     items.any (fun c =>
       isStrVal (oget c "attribute") attrName || isStrVal (oget c "attribute") attrPattern)
   | _ => false)

/-- Runs one entry's operation list over the input (pipeline: a truthy return
value is spread-merged into the running input). -/
def runBeforeEntryOps (context : Ctx) : List EngineOp → JVal → Except String JVal
  | [], input => .ok input
  | op :: ops, input => do
    let functionInput ← op context input
    let input := if jsTruthy functionInput then spread2 input functionInput else input
    runBeforeEntryOps context ops input

/-- The entry loop of `runBeforeOperations` (src/entraid-client.ts 146-190). -/
def runBeforeGo (hookName : String) (context : Ctx) :
    Registry → JVal → Except String (JVal × Log)
  | [], input => .ok (input, [])
  | (pattern, operation) :: rest, input =>
    let hp := (splitPattern pattern).1
    let ap := (splitPattern pattern).2
    if matchesPattern hookName hp then
      if ap = "*" || ap = "null" then do
        let input ← runBeforeEntryOps context operation.toList input
        let (out, log) ← runBeforeGo hookName context rest input
        .ok (out, pattern :: log)
      else
        let attrName := shortAttrName ap
        if hasAttributeCheck input attrName ap then do
          let input ← runBeforeEntryOps context operation.toList input
          let (out, log) ← runBeforeGo hookName context rest input
          .ok (out, pattern :: log)
        else runBeforeGo hookName context rest input
    else runBeforeGo hookName context rest input

/-- Models `runBeforeOperations(hookName, operations)` applied to `(context, input)`. -/
def runBeforeOperations (hookName : String) (operations : Registry) (context : Ctx)
    (input : JVal) : Except String (JVal × Log) :=
  runBeforeGo hookName context operations input

/-- Runs one entry's operation list over one output element, spread-merging
truthy returns; the flag reports whether anything merged (`mutated`). -/
def runAfterItemOps (context : Ctx) : List EngineOp → JVal → Bool → Except String (JVal × Bool)
  | [], item, mutated => .ok (item, mutated)
  | op :: ops, item, mutated => do
    let functionOutput ← op context item
    if jsTruthy functionOutput then
      runAfterItemOps context ops (spread2 item functionOutput) true
    else runAfterItemOps context ops item mutated

/-- The per-item loop of an unconditional (`*`/`null`) after entry. -/
def runAfterUncondItems (context : Ctx) (pattern : String) (ops : List EngineOp) :
    List JVal → Except String (List JVal × Log)
  | [] => .ok ([], [])
  | item :: rest => do
    let (item', mutated) ← runAfterItemOps context ops item false
    let (rest', log) ← runAfterUncondItems context pattern ops rest
    .ok ((if mutated then item' else item) :: rest', pattern :: log)

/-- The per-item loop of an attribute-specific after entry: elements whose
`attributes` bag is missing are skipped (src/entraid-client.ts 261-266). -/
def runAfterAttrItems (context : Ctx) (pattern attributePath : String) (ops : List EngineOp) :
    List JVal → Except String (List JVal × Log)
  | [] => .ok ([], [])
  | item :: rest =>
    if strStartsWith attributePath "attributes." && !(jsTruthy (oget item "attributes")) then do
      let (rest', log) ← runAfterAttrItems context pattern attributePath ops rest
      .ok (item :: rest', log)
    else do
      let (item', mutated) ← runAfterItemOps context ops item false
      let (rest', log) ← runAfterAttrItems context pattern attributePath ops rest
      .ok ((if mutated then item' else item) :: rest', pattern :: log)

/-- The entry loop of `runAfterOperations` (src/entraid-client.ts 220-285). -/
def runAfterGo (hookName : String) (context : Ctx) :
    Registry → List JVal → Except String (List JVal × Log)
  | [], items => .ok (items, [])
  | (pattern, operation) :: rest, items =>
    let hp := (splitPattern pattern).1
    let ap := (splitPattern pattern).2
    if matchesPattern hookName hp then
      if ap = "*" || ap = "null" then do
        let (items, log1) ← runAfterUncondItems context pattern operation.toList items
        let (items, log2) ← runAfterGo hookName context rest items
        .ok (items, log1 ++ log2)
      else
        let attributePath :=
          if strStartsWith ap "attributes." then ap else "attributes." ++ ap
        do
          let (items, log1) ← runAfterAttrItems context pattern attributePath operation.toList items
          let (items, log2) ← runAfterGo hookName context rest items
          .ok (items, log1 ++ log2)
    else runAfterGo hookName context rest items

/-- Models `runAfterOperations(hookName, operations)` applied to `(context, output)`:
normalises the output to a list, runs every matching entry, and returns a
single object or the list according to the input shape. -/
def runAfterOperations (hookName : String) (operations : Registry) (context : Ctx)
    (output : JVal) : Except String (JVal × Log) := do
  let items :=
    match output with
    | .arr xs => xs
    | v => [v]
  let (result, log) ← runAfterGo hookName context operations items
  .ok ((match output with
        | .arr _ => .arr result
        | _ => (result.head?).getD .undefined), log)

-- ---------------------------------------------------------------------------
-- Legacy per-attribute after handlers (src/index.ts 18-54): each operation is
-- run inside try/catch, so a failing operation is logged and skipped.
-- ---------------------------------------------------------------------------

/-- Modelled from the spec: `setAccountAttribute` is imported from the
repository's `./operations` module, which is not under src/. Per §4.1
(`write`, nested writes auto-vivify the attribute bag) and the twin
`setAttribute` in src/utils.ts: writes `attributes.`-prefixed paths into the
nested bag, other paths as direct fields. -/
def setAccountAttribute (object : JVal) (attrPath : String) (value : JVal) : JVal :=
  let objSet := fun (fields : Obj) (k : String) (v : JVal) =>
    if hasField fields k then
      fields.map (fun p => if p.1 = k then (k, v) else p)
    else fields ++ [(k, v)]
  match object with
  | .obj fields =>
    if strStartsWith attrPath "attributes." then
      let k := attrPath.drop ("attributes.".length)
      let attrs :=
        match jget fields "attributes" with
        | .obj a => a
        | _ => []
      .obj (objSet fields "attributes" (.obj (objSet attrs k value)))
    else .obj (objSet fields attrPath value)
  | v => v

/-- Models `stdAccountListAfterHandler` (src/index.ts 18-34): iterates the operation
map; each operation call and attribute write is wrapped in try/catch, so an
operation error is logged and swallowed and the handler always resolves with
the (possibly partially enriched) output. -/
def stdAccountListAfterHandler (operations : List (String × (JVal → Except String JVal)))
    (output : JVal) : Except String JVal :=
  .ok (operations.foldl
    (fun out p =>
      match p.2 out with
      | .error _ => out
      | .ok value => setAccountAttribute out p.1 value)
    output)

-- ---------------------------------------------------------------------------
-- Helper lemmas
-- ---------------------------------------------------------------------------

theorem cacheGet_erase_self (cache : Cache) (k : String) :
    cacheGet (cacheErase cache k) k = none := by
  induction cache with
  | nil => rfl
  | cons p rest ih =>
    by_cases h : p.1 = k
    · simpa [cacheErase, List.filter, h] using ih
    · simpa [cacheErase, List.filter, h, cacheGet] using ih

theorem cacheGet_set_self (cache : Cache) (k : String) (v : CachedInput) :
    cacheGet (cacheSet cache k v) k = some v := by
  simp [cacheSet, cacheGet]

theorem getCachedInput_of_key (context : Ctx) (cache : Cache) (k : String)
    (hk : cacheKey context = some k) (hne : k ≠ "") :
    getCachedInput context cache = (cacheGet cache k, cacheErase cache k) := by
  simp [getCachedInput, hk, hne]

/-- A filter that keeps everything means the predicate held everywhere. -/
theorem filter_keep_all {α : Type} (p : α → Bool) (l : List α)
    (h : (l.filter p).length = l.length) : ∀ a ∈ l, p a = true := by
  induction l with
  | nil => intro a ha; cases ha
  | cons x xs ih =>
    intro a ha
    by_cases hx : p x
    · rcases List.mem_cons.mp ha with rfl | ha
      · exact hx
      · exact ih (by simpa [List.filter, hx] using h) a ha
    · exfalso
      have hle := List.length_filter_le p xs
      simp [List.filter, hx] at h
      omega

theorem jget_filter_out (l : Obj) (k : String)
    (hk : k = "sponsors" ∨ k = "attributes.sponsors") :
    jget (l.filter (fun p => !(p.1 = "sponsors") && !(p.1 = "attributes.sponsors"))) k
      = .undefined := by
  induction l with
  | nil => rfl
  | cons p rest ih =>
    by_cases h1 : p.1 = "sponsors"
    · simpa [List.filter, h1] using ih
    · by_cases h2 : p.1 = "attributes.sponsors"
      · simpa [List.filter, h1, h2] using ih
      · have hne : ¬(p.1 = k) := by rcases hk with rfl | rfl <;> assumption
        simpa [List.filter, h1, h2, jget, hne] using ih

theorem jget_of_not_hasField (f : Obj) (k : String) (h : hasField f k = false) :
    jget f k = .undefined := by
  induction f with
  | nil => rfl
  | cons p rest ih =>
    obtain ⟨pk, pv⟩ := p
    simp [hasField] at h
    have hr : hasField rest k = false := by
      simp [hasField]
      exact h.2
    simpa [jget, h.1] using ih hr

theorem hasField_map_fst (f : Obj) (g : String × JVal → JVal) (k : String) :
    hasField (f.map (fun p => (p.1, g p))) k = hasField f k := by
  induction f with
  | nil => rfl
  | cons p rest ih =>
    simp only [List.map_cons, hasField, List.any_cons]
    simp only [hasField] at ih
    simp [ih]

theorem jget_append_split (a b : Obj) (k : String) :
    jget (a ++ b) k = if hasField a k then jget a k else jget b k := by
  induction a with
  | nil => simp [hasField, jget]
  | cons p rest ih =>
    obtain ⟨pk, pv⟩ := p
    by_cases h : pk = k
    · subst h
      simp [jget, hasField]
    · have hh : hasField ((pk, pv) :: rest) k = hasField rest k := by
        simp [hasField, h]
      rw [List.cons_append,
        show jget ((pk, pv) :: (rest ++ b)) k = jget (rest ++ b) k from by simp [jget, h],
        ih, hh,
        show jget ((pk, pv) :: rest) k = jget rest k from by simp [jget, h]]

theorem override_fun_simplify (k : String) (v : JVal) :
    (fun (p : String × JVal) =>
        (p.1, if hasField [(k, v)] p.1 then jget [(k, v)] p.1 else p.2)) =
      (fun (p : String × JVal) => (p.1, if k = p.1 then v else p.2)) := by
  funext p
  by_cases h : k = p.1 <;> simp [hasField, jget, h]

theorem jget_map_override_self (f : Obj) (k : String) (v : JVal) :
    jget (f.map (fun (p : String × JVal) => (p.1, if k = p.1 then v else p.2))) k
      = if hasField f k then v else .undefined := by
  induction f with
  | nil => simp [jget, hasField]
  | cons p rest ih =>
    obtain ⟨pk, pv⟩ := p
    by_cases h : pk = k
    · subst h
      simp [jget, hasField]
    · have h2 : ¬(k = pk) := fun hk => h hk.symm
      have hh : hasField ((pk, pv) :: rest) k = hasField rest k := by
        simp [hasField, h]
      have hj : jget (((pk, pv) :: rest).map
            (fun (p : String × JVal) => (p.1, if k = p.1 then v else p.2))) k
          = jget (rest.map (fun (p : String × JVal) => (p.1, if k = p.1 then v else p.2))) k := by
        simp [jget, h]
      rw [hj, ih, hh]

theorem jget_map_override_other (f : Obj) (k k' : String) (v : JVal) (hne : k' ≠ k) :
    jget (f.map (fun (p : String × JVal) => (p.1, if k = p.1 then v else p.2))) k'
      = jget f k' := by
  induction f with
  | nil => rfl
  | cons p rest ih =>
    obtain ⟨pk, pv⟩ := p
    by_cases h : pk = k'
    · subst h
      have hk : ¬(k = pk) := fun hkk => hne hkk.symm
      simp [jget, hk]
    · simpa [jget, if_neg h] using ih

theorem singleton_filter_not_hasField (f : Obj) (k : String) (v : JVal) :
    ([(k, v)] : Obj).filter (fun p => !(hasField f p.1)) =
      if hasField f k then [] else [(k, v)] := by
  by_cases h : hasField f k <;> simp [List.filter, h]

theorem jget_mergeObj_single_self (f : Obj) (k : String) (v : JVal) :
    jget (mergeObj f [(k, v)]) k = v := by
  unfold mergeObj
  rw [override_fun_simplify, singleton_filter_not_hasField, jget_append_split,
    hasField_map_fst]
  by_cases h : hasField f k
  · rw [if_pos h, jget_map_override_self, if_pos h]
  · rw [if_neg h, if_neg h]
    simp [jget]

theorem jget_mergeObj_single_other (f : Obj) (k k' : String) (v : JVal)
    (hne : k' ≠ k) :
    jget (mergeObj f [(k, v)]) k' = jget f k' := by
  unfold mergeObj
  rw [override_fun_simplify, singleton_filter_not_hasField, jget_append_split,
    hasField_map_fst]
  by_cases h : hasField f k'
  · rw [if_pos h, jget_map_override_other _ _ _ _ hne]
  · rw [if_neg h, jget_of_not_hasField f k' (by simpa using h)]
    by_cases hk : hasField f k
    · simp [hk, jget]
    · rw [if_neg hk]
      show jget [(k, v)] k' = JVal.undefined
      simp only [jget]
      rw [if_neg (fun hkk => hne hkk.symm)]

theorem oget_setSpread_self (f : Obj) (k : String) (v : JVal) :
    oget (setSpread (.obj f) k v) k = v := by
  simp [setSpread, spread2, spreadFields, oget, jget_mergeObj_single_self]

theorem oget_setSpread_other (f : Obj) (k k' : String) (v : JVal) (hne : k' ≠ k) :
    oget (setSpread (.obj f) k v) k' = jget f k' := by
  simp [setSpread, spread2, spreadFields, oget, jget_mergeObj_single_other _ _ _ _ hne]

/-- A non-undefined property read forces the base value to be an object. -/
theorem ogetObjOfDefined (v : JVal) (k : String) (h : oget v k ≠ .undefined) :
    ∃ f, v = .obj f := by
  cases v with
  | obj f => exact ⟨f, rfl⟩
  | undefined => exact absurd rfl h
  | null => exact absurd rfl h
  | str s => exact absurd rfl h
  | num n => exact absurd rfl h
  | bool b => exact absurd rfl h
  | arr items => exact absurd rfl h

/-- A value that is not an object reads as `undefined` at every key. -/
theorem oget_nonobj (v : JVal) (k : String)
    (h : ∀ fields, v ≠ JVal.obj fields) : oget v k = .undefined := by
  cases v with
  | obj f => exact absurd rfl (h f)
  | undefined => rfl
  | null => rfl
  | str s => rfl
  | num n => rfl
  | bool b => rfl
  | arr items => rfl

theorem stripSponsorsAttrs_sponsors_nullish (input : JVal) (k : String)
    (hk : k = "sponsors" ∨ k = "attributes.sponsors") :
    isNullish (oget (oget (stripSponsorsAttrs input) "attributes") k) = true := by
  unfold stripSponsorsAttrs
  split
  · next hg =>
    split
    · next afields heq =>
      obtain ⟨f, rfl⟩ := ogetObjOfDefined input "attributes" (by simp [heq])
      rw [oget_setSpread_self]
      show isNullish (jget (afields.filter
        (fun p => !(p.1 = "sponsors") && !(p.1 = "attributes.sponsors"))) k) = true
      rw [jget_filter_out afields k hk]
      rfl
    · next hno =>
      exfalso
      have hu1 : oget (oget input "attributes") "sponsors" = .undefined :=
        oget_nonobj _ _ (fun fields hf => hno fields hf)
      have hu2 : oget (oget input "attributes") "attributes.sponsors" = .undefined :=
        oget_nonobj _ _ (fun fields hf => hno fields hf)
      rw [hu1, hu2] at hg
      simp [notNullish, isNullish] at hg
  · next hg =>
    simp [notNullish] at hg
    rcases hk with rfl | rfl
    · exact hg.1
    · exact hg.2

theorem stripSponsorsAttrs_preserves (input : JVal) (k : String)
    (hk : k ≠ "attributes") :
    oget (stripSponsorsAttrs input) k = oget input k := by
  unfold stripSponsorsAttrs
  split
  · split
    · next afields heq =>
      obtain ⟨f, rfl⟩ := ogetObjOfDefined input "attributes" (by simp [heq])
      rw [oget_setSpread_other _ _ _ _ hk]
      rfl
    · rfl
  · rfl

theorem stripSponsorsChanges_preserves (input : JVal) (k : String)
    (hk : k ≠ "changes") :
    oget (stripSponsorsChanges input) k = oget input k := by
  unfold stripSponsorsChanges
  split
  · next items heq =>
    split
    · dsimp only
      split
      · obtain ⟨f, rfl⟩ := ogetObjOfDefined input "changes" (by simp [heq])
        rw [oget_setSpread_other _ _ _ _ hk]
        rfl
      · rfl
    · rfl
  · rfl

theorem stripSponsorsChanges_clean (input : JVal) (items : List JVal)
    (h : oget (stripSponsorsChanges input) "changes" = .arr items) :
    ∀ c ∈ items, isSponsorsChange c = false := by
  unfold stripSponsorsChanges at h
  split at h
  · next items0 heq =>
    split at h
    · dsimp only at h
      split at h
      · obtain ⟨f, rfl⟩ := ogetObjOfDefined input "changes" (by simp [heq])
        rw [oget_setSpread_self] at h
        have hitems : items = items0.filter (fun c => !(isSponsorsChange c)) :=
          (JVal.arr.inj h).symm
        intro c hc
        rw [hitems] at hc
        simpa using (List.mem_filter.mp hc).2
      · next hf =>
        rw [heq] at h
        have hitems : items = items0 := (JVal.arr.inj h).symm
        push_neg at hf
        intro c hc
        have := filter_keep_all _ items0 hf c (hitems ▸ hc)
        simpa using this
    · next hlen =>
      rw [heq] at h
      push_neg at hlen
      have hitems : items = items0 := (JVal.arr.inj h).symm
      intro c hc
      rw [hitems, List.length_eq_zero.mp hlen] at hc
      cases hc
  · next hno =>
    exfalso
    rw [h] at hno
    exact hno items rfl

/-- Combined characterisation of `stripSponsorsFromInput` used by the
round-trip claims: the sponsors keys read as nullish from the attribute bag,
every other top-level field is preserved, and the change list carries no
sponsors entry. -/
theorem strip_spec (input : JVal) :
    isNullish (oget (oget (stripSponsorsFromInput input) "attributes") "sponsors") = true ∧
    isNullish (oget (oget (stripSponsorsFromInput input) "attributes") "attributes.sponsors") = true ∧
    (∀ k, k ≠ "attributes" → k ≠ "changes" →
      oget (stripSponsorsFromInput input) k = oget input k) ∧
    (∀ items, oget (stripSponsorsFromInput input) "changes" = .arr items →
      ∀ c ∈ items, isSponsorsChange c = false) := by
  unfold stripSponsorsFromInput
  refine ⟨?_, ?_, ?_, ?_⟩
  · rw [stripSponsorsChanges_preserves _ _ (by decide)]
    exact stripSponsorsAttrs_sponsors_nullish input _ (Or.inl rfl)
  · rw [stripSponsorsChanges_preserves _ _ (by decide)]
    exact stripSponsorsAttrs_sponsors_nullish input _ (Or.inr rfl)
  · intro k hka hkc
    rw [stripSponsorsChanges_preserves _ _ hkc, stripSponsorsAttrs_preserves _ _ hka]
  · intro items h
    exact stripSponsorsChanges_clean _ items h

-- ---------------------------------------------------------------------------
-- Demonstration values shared by the claim theorems
-- ---------------------------------------------------------------------------

/-- A sponsors set-change entry with value `"s@x"`. -/
def demoSetChange : JVal :=
  .obj [("attribute", .str "sponsors"), ("op", attributeChangeOpSet), ("value", .str "s@x")]

/-- An update-command context carrying correlation key `"inv1"`. -/
def demoUpdateCtx : Ctx := { commandType := "std:account:update", invocationId := some "inv1" }

/-- An engine operation that succeeds without returning a value
(`return undefined`, so the engine merges nothing). -/
def noopOp : EngineOp := fun _ _ => .ok JVal.undefined

/-- An engine operation that always rejects. -/
def failOp : EngineOp := fun _ _ => .error "boom"

-- ---------------------------------------------------------------------------
-- Claim theorems
-- ---------------------------------------------------------------------------

/-- C1 (code evaluated at the claim's failing input): with a cached handoff
record `{userId: "u1", setUpn: "b@x"}` under the invocation's correlation key
and an output identifying user `"u1"`, the after operation `setSponsors`
returns `undefined` and performs no Graph call whatsoever: it never fetches
the sponsor relationship (so the scenario's three fetched values `["a@x",
"b@x","c@x"]` are unreachable), returns no `"b@x"` enrichment, and issues no
best-effort removals. The cached `setUpn` is consumed and dropped unread. -/
theorem setSponsors_no_singular_enforcement :
    setSponsors demoUpdateCtx
      [("inv1", { userId := .str "u1", identity := .str "u1", setUpn := .str "b@x" })]
      (.obj [("identity", .str "u1"), ("attributes", .obj [("objectId", .str "u1")])])
      = (JVal.undefined, [], []) := rfl

/-- C3: for every correlation key with a cached record, `getCachedInput`
returns the record and removes it; a second call with the same key (and no
intervening put) returns an absent value. -/
theorem getCachedInput_take_once (context : Ctx) (cache : Cache) (k : String)
    (r : CachedInput) (hkey : cacheKey context = some k) (hk : k ≠ "")
    (hr : cacheGet cache k = some r) :
    (getCachedInput context cache).1 = some r ∧
    (getCachedInput context (getCachedInput context cache).2).1 = none := by
  rw [getCachedInput_of_key _ _ _ hkey hk]
  refine ⟨hr, ?_⟩
  rw [getCachedInput_of_key _ _ _ hkey hk]
  exact cacheGet_erase_self cache k

/-- C3 witness: a concrete take-once run on key `"inv1"`. -/
theorem getCachedInput_take_once_witness :
    (getCachedInput demoUpdateCtx [("inv1", { userId := .str "u1" })]).1 =
        some { userId := .str "u1" } ∧
    (getCachedInput demoUpdateCtx
        (getCachedInput demoUpdateCtx [("inv1", { userId := .str "u1" })]).2).1 = none :=
  getCachedInput_take_once demoUpdateCtx [("inv1", { userId := .str "u1" })] "inv1"
    { userId := .str "u1" } rfl (by decide) rfl

/-- Binding a successful `Except` computation just applies the continuation. -/
theorem exceptOk_bind {α β : Type} (a : α) (f : α → Except String β) :
    ((Except.ok a : Except String α) >>= f) = f a := rfl

/-- Binding a failed `Except` computation keeps the error. -/
theorem exceptErr_bind {α β : Type} (s : String) (f : α → Except String β) :
    ((Except.error s : Except String α) >>= f) = .error s := rfl

/-- C5 counterexample: the legacy `index.ts` after handler runs each
operation inside try/catch; with an operation that throws, the handler still
resolves normally with the original output instead of propagating the
operation's error. -/
theorem index_after_handler_swallows_op_error :
    stdAccountListAfterHandler
        [("sponsors", fun _ => .error "Graph request failed")]
        (.obj [("uuid", .str "u1")])
      = .ok (.obj [("uuid", .str "u1")]) := rfl

/-- A pipeline prefix of before operations that succeeds, followed by a
failing operation, makes the whole entry's operation list fail. -/
theorem runBeforeEntryOps_error_at (context : Ctx) (ops1 ops2 : List EngineOp)
    (op : EngineOp) (input mid : JVal) (e : String)
    (h1 : runBeforeEntryOps context ops1 input = .ok mid)
    (h2 : op context mid = .error e) :
    runBeforeEntryOps context (ops1 ++ op :: ops2) input = .error e := by
  induction ops1 generalizing input with
  | nil =>
    have hmid : input = mid := by simpa [runBeforeEntryOps] using h1
    subst hmid
    show runBeforeEntryOps context (op :: ops2) input = .error e
    unfold runBeforeEntryOps
    rw [h2]
    rfl
  | cons o os ih =>
    rw [List.cons_append]
    unfold runBeforeEntryOps at h1 ⊢
    cases ho : o context input with
    | error s =>
      rw [ho] at h1
      exact Except.noConfusion
        (show (Except.error s : Except String JVal) = Except.ok mid from h1)
    | ok v =>
      rw [ho] at h1
      have h1b : runBeforeEntryOps context os
          (if jsTruthy v = true then spread2 input v else input) = Except.ok mid := h1
      show runBeforeEntryOps context (os ++ op :: ops2)
          (if jsTruthy v = true then spread2 input v else input) = Except.error e
      exact ih _ h1b

/-- An entry whose hook pattern matches and whose applicability condition
holds propagates a failure of its operation list. -/
theorem runBeforeGo_entry_error (hookName : String) (context : Ctx)
    (pattern : String) (entry : OpEntry) (rest : Registry) (input : JVal)
    (e : String)
    (hmatch : matchesPattern hookName (splitPattern pattern).1 = true)
    (happl : (splitPattern pattern).2 = "*" ∨ (splitPattern pattern).2 = "null" ∨
      hasAttributeCheck input (shortAttrName (splitPattern pattern).2)
        (splitPattern pattern).2 = true)
    (he : runBeforeEntryOps context entry.toList input = .error e) :
    runBeforeGo hookName context ((pattern, entry) :: rest) input = .error e := by
  unfold runBeforeGo
  dsimp only
  rw [if_pos hmatch]
  by_cases hu : (decide ((splitPattern pattern).2 = "*") ||
      decide ((splitPattern pattern).2 = "null")) = true
  · rw [if_pos hu, he]
    rfl
  · have hu2 : ¬((splitPattern pattern).2 = "*") ∧
        ¬((splitPattern pattern).2 = "null") := by
      simpa [not_or] using hu
    have hp : hasAttributeCheck input (shortAttrName (splitPattern pattern).2)
        (splitPattern pattern).2 = true := by
      rcases happl with h | h | h
      · exact absurd h hu2.1
      · exact absurd h hu2.2
      · exact h
    rw [if_neg hu, if_pos hp, he]
    rfl

/-- A registry prefix that processes successfully composes with a failing
remainder: the whole before run fails with the same error. -/
theorem runBeforeGo_prefix_error (hookName : String) (context : Ctx)
    (pre b : Registry) (input mid : JVal) (log0 : Log) (e : String)
    (h1 : runBeforeGo hookName context pre input = .ok (mid, log0))
    (h2 : runBeforeGo hookName context b mid = .error e) :
    runBeforeGo hookName context (pre ++ b) input = .error e := by
  induction pre generalizing input log0 with
  | nil =>
    simp [runBeforeGo] at h1
    obtain ⟨rfl, rfl⟩ := h1
    exact h2
  | cons pe rest ih =>
    obtain ⟨pattern, entry⟩ := pe
    rw [List.cons_append]
    unfold runBeforeGo at h1 ⊢
    dsimp only at h1 ⊢
    by_cases hm : matchesPattern hookName (splitPattern pattern).1 = true
    case neg =>
      rw [if_neg hm] at h1 ⊢
      exact ih _ _ h1
    case pos =>
      rw [if_pos hm] at h1 ⊢
      by_cases hu : (decide ((splitPattern pattern).2 = "*") ||
          decide ((splitPattern pattern).2 = "null")) = true
      case pos =>
        rw [if_pos hu] at h1 ⊢
        cases he : runBeforeEntryOps context entry.toList input with
        | error s =>
          rw [he] at h1
          exact Except.noConfusion
            (show (Except.error s : Except String (JVal × Log))
              = Except.ok (mid, log0) from h1)
        | ok in2 =>
          rw [he] at h1
          have h1b : (runBeforeGo hookName context rest in2 >>= fun d =>
              Except.ok (d.1, pattern :: d.2)) = Except.ok (mid, log0) := h1
          show (runBeforeGo hookName context (rest ++ b) in2 >>= fun d =>
              Except.ok (d.1, pattern :: d.2)) = Except.error e
          cases hr : runBeforeGo hookName context rest in2 with
          | error s =>
            rw [hr] at h1b
            rw [exceptErr_bind] at h1b
            exact Except.noConfusion h1b
          | ok r =>
            obtain ⟨o1, l1⟩ := r
            rw [hr] at h1b
            rw [exceptOk_bind] at h1b
            dsimp only at h1b
            injection h1b with h3
            injection h3 with ha hb
            subst ha
            rw [ih in2 l1 hr, exceptErr_bind]
      case neg =>
        rw [if_neg hu] at h1 ⊢
        by_cases hp : hasAttributeCheck input
            (shortAttrName (splitPattern pattern).2) (splitPattern pattern).2 = true
        case pos =>
          rw [if_pos hp] at h1 ⊢
          cases he : runBeforeEntryOps context entry.toList input with
          | error s =>
            rw [he] at h1
            exact Except.noConfusion
              (show (Except.error s : Except String (JVal × Log))
                = Except.ok (mid, log0) from h1)
          | ok in2 =>
            rw [he] at h1
            have h1b : (runBeforeGo hookName context rest in2 >>= fun d =>
                Except.ok (d.1, pattern :: d.2)) = Except.ok (mid, log0) := h1
            show (runBeforeGo hookName context (rest ++ b) in2 >>= fun d =>
                Except.ok (d.1, pattern :: d.2)) = Except.error e
            cases hr : runBeforeGo hookName context rest in2 with
            | error s =>
              rw [hr] at h1b
              rw [exceptErr_bind] at h1b
              exact Except.noConfusion h1b
            | ok r =>
              obtain ⟨o1, l1⟩ := r
              rw [hr] at h1b
              rw [exceptOk_bind] at h1b
              dsimp only at h1b
              injection h1b with h3
              injection h3 with ha hb
              subst ha
              rw [ih in2 l1 hr, exceptErr_bind]
        case neg =>
          rw [if_neg hp] at h1 ⊢
          exact ih _ _ h1

/-- A merge prefix of after operations that succeeds on an element, followed
by a failing operation, makes the element's whole operation list fail. -/
theorem runAfterItemOps_error_at (context : Ctx) (ops1 ops2 : List EngineOp)
    (op : EngineOp) (item mid : JVal) (m m2 : Bool) (e : String)
    (h1 : runAfterItemOps context ops1 item m = .ok (mid, m2))
    (h2 : op context mid = .error e) :
    runAfterItemOps context (ops1 ++ op :: ops2) item m = .error e := by
  induction ops1 generalizing item m with
  | nil =>
    have h3 : item = mid ∧ m = m2 := by simpa [runAfterItemOps] using h1
    obtain ⟨rfl, rfl⟩ := h3
    show runAfterItemOps context (op :: ops2) item m = .error e
    unfold runAfterItemOps
    rw [h2]
    rfl
  | cons o os ih =>
    rw [List.cons_append]
    unfold runAfterItemOps at h1 ⊢
    cases ho : o context item with
    | error s =>
      rw [ho] at h1
      exact Except.noConfusion
        (show (Except.error s : Except String (JVal × Bool))
          = Except.ok (mid, m2) from h1)
    | ok v =>
      rw [ho] at h1
      have h1b : (if jsTruthy v = true then
            runAfterItemOps context os (spread2 item v) true
          else runAfterItemOps context os item m) = Except.ok (mid, m2) := h1
      show (if jsTruthy v = true then
            runAfterItemOps context (os ++ op :: ops2) (spread2 item v) true
          else runAfterItemOps context (os ++ op :: ops2) item m) = Except.error e
      by_cases ht : jsTruthy v = true
      · rw [if_pos ht] at h1b ⊢
        exact ih _ _ h1b
      · rw [if_neg ht] at h1b ⊢
        exact ih _ _ h1b

/-- In an unconditional after entry, an element prefix that processes
successfully followed by an element whose operations fail makes the whole
per-item loop fail. -/
theorem runAfterUncondItems_item_error (context : Ctx) (pattern : String)
    (ops : List EngineOp) (i1 i2 : List JVal) (item : JVal) (e : String)
    (hpre : ∃ r, runAfterUncondItems context pattern ops i1 = .ok r)
    (herr : runAfterItemOps context ops item false = .error e) :
    runAfterUncondItems context pattern ops (i1 ++ item :: i2) = .error e := by
  induction i1 with
  | nil =>
    show runAfterUncondItems context pattern ops (item :: i2) = .error e
    unfold runAfterUncondItems
    rw [herr]
    rfl
  | cons j js ih =>
    obtain ⟨r, hr⟩ := hpre
    rw [List.cons_append]
    unfold runAfterUncondItems at hr ⊢
    cases hj : runAfterItemOps context ops j false with
    | error s =>
      rw [hj] at hr
      exact Except.noConfusion
        (show (Except.error s : Except String (List JVal × Log))
          = Except.ok r from hr)
    | ok p =>
      rw [hj] at hr
      obtain ⟨j2, mj⟩ := p
      have hrb : (runAfterUncondItems context pattern ops js >>= fun d =>
          Except.ok ((if mj = true then j2 else j) :: d.1, pattern :: d.2))
          = Except.ok r := hr
      show (runAfterUncondItems context pattern ops (js ++ item :: i2) >>= fun d =>
          Except.ok ((if mj = true then j2 else j) :: d.1, pattern :: d.2))
          = Except.error e
      cases hrec : runAfterUncondItems context pattern ops js with
      | error s =>
        rw [hrec, exceptErr_bind] at hrb
        exact Except.noConfusion hrb
      | ok r2 => rw [ih ⟨r2, hrec⟩, exceptErr_bind]

/-- In an attribute-specific after entry, an element prefix that processes
successfully followed by a non-skipped element whose operations fail makes
the whole per-item loop fail. -/
theorem runAfterAttrItems_item_error (context : Ctx) (pattern path : String)
    (ops : List EngineOp) (i1 i2 : List JVal) (item : JVal) (e : String)
    (hpre : ∃ r, runAfterAttrItems context pattern path ops i1 = .ok r)
    (hskip : (strStartsWith path "attributes." &&
      !(jsTruthy (oget item "attributes"))) = false)
    (herr : runAfterItemOps context ops item false = .error e) :
    runAfterAttrItems context pattern path ops (i1 ++ item :: i2) = .error e := by
  induction i1 with
  | nil =>
    show runAfterAttrItems context pattern path ops (item :: i2) = .error e
    unfold runAfterAttrItems
    rw [if_neg (by simp [hskip]), herr]
    rfl
  | cons j js ih =>
    obtain ⟨r, hr⟩ := hpre
    rw [List.cons_append]
    unfold runAfterAttrItems at hr ⊢
    by_cases hs : (strStartsWith path "attributes." &&
        !(jsTruthy (oget j "attributes"))) = true
    · rw [if_pos hs] at hr ⊢
      have hrb : (runAfterAttrItems context pattern path ops js >>= fun d =>
          Except.ok (j :: d.1, d.2)) = Except.ok r := hr
      show (runAfterAttrItems context pattern path ops (js ++ item :: i2) >>= fun d =>
          Except.ok (j :: d.1, d.2)) = Except.error e
      cases hrec : runAfterAttrItems context pattern path ops js with
      | error s =>
        rw [hrec, exceptErr_bind] at hrb
        exact Except.noConfusion hrb
      | ok r2 => rw [ih ⟨r2, hrec⟩, exceptErr_bind]
    · rw [if_neg hs] at hr ⊢
      cases hj : runAfterItemOps context ops j false with
      | error s =>
        rw [hj] at hr
        exact Except.noConfusion
          (show (Except.error s : Except String (List JVal × Log))
            = Except.ok r from hr)
      | ok p =>
        rw [hj] at hr
        obtain ⟨j2, mj⟩ := p
        have hrb : (runAfterAttrItems context pattern path ops js >>= fun d =>
            Except.ok ((if mj = true then j2 else j) :: d.1, pattern :: d.2))
            = Except.ok r := hr
        show (runAfterAttrItems context pattern path ops (js ++ item :: i2) >>= fun d =>
            Except.ok ((if mj = true then j2 else j) :: d.1, pattern :: d.2))
            = Except.error e
        cases hrec : runAfterAttrItems context pattern path ops js with
        | error s =>
          rw [hrec, exceptErr_bind] at hrb
          exact Except.noConfusion hrb
        | ok r2 => rw [ih ⟨r2, hrec⟩, exceptErr_bind]

/-- A matched after entry whose per-item loop fails makes the whole after
entry loop fail. -/
theorem runAfterGo_head_error (hookName : String) (context : Ctx)
    (pattern : String) (entry : OpEntry) (rest : Registry) (items : List JVal)
    (e : String)
    (hmatch : matchesPattern hookName (splitPattern pattern).1 = true)
    (herr :
      (((splitPattern pattern).2 = "*" ∨ (splitPattern pattern).2 = "null") ∧
        runAfterUncondItems context pattern entry.toList items = .error e) ∨
      (((splitPattern pattern).2 ≠ "*" ∧ (splitPattern pattern).2 ≠ "null") ∧
        runAfterAttrItems context pattern
          (if strStartsWith (splitPattern pattern).2 "attributes."
           then (splitPattern pattern).2
           else "attributes." ++ (splitPattern pattern).2) entry.toList items
          = .error e)) :
    runAfterGo hookName context ((pattern, entry) :: rest) items = .error e := by
  unfold runAfterGo
  dsimp only
  rw [if_pos hmatch]
  rcases herr with ⟨hu, he⟩ | ⟨⟨h1, h2⟩, he⟩
  · rw [if_pos (by rcases hu with h | h <;> simp [h]), he]
    rfl
  · rw [if_neg (by simp [h1, h2]), he]
    rfl

/-- A registry prefix that processes successfully composes with a failing
remainder: the whole after run fails with the same error. -/
theorem runAfterGo_prefix_error (hookName : String) (context : Ctx)
    (pre b : Registry) (items mid : List JVal) (log0 : Log) (e : String)
    (h1 : runAfterGo hookName context pre items = .ok (mid, log0))
    (h2 : runAfterGo hookName context b mid = .error e) :
    runAfterGo hookName context (pre ++ b) items = .error e := by
  induction pre generalizing items log0 with
  | nil =>
    simp [runAfterGo] at h1
    obtain ⟨rfl, rfl⟩ := h1
    exact h2
  | cons pe rest ih =>
    obtain ⟨pattern, entry⟩ := pe
    rw [List.cons_append]
    unfold runAfterGo at h1 ⊢
    dsimp only at h1 ⊢
    by_cases hm : matchesPattern hookName (splitPattern pattern).1 = true
    case neg =>
      rw [if_neg hm] at h1 ⊢
      exact ih _ _ h1
    case pos =>
      rw [if_pos hm] at h1 ⊢
      by_cases hu : (decide ((splitPattern pattern).2 = "*") ||
          decide ((splitPattern pattern).2 = "null")) = true
      case pos =>
        rw [if_pos hu] at h1 ⊢
        cases hx : runAfterUncondItems context pattern entry.toList items with
        | error s =>
          rw [hx] at h1
          exact Except.noConfusion
            (show (Except.error s : Except String (List JVal × Log))
              = Except.ok (mid, log0) from h1)
        | ok p =>
          rw [hx] at h1
          obtain ⟨mi, l1⟩ := p
          have h1b : (runAfterGo hookName context rest mi >>= fun d =>
              Except.ok (d.1, l1 ++ d.2)) = Except.ok (mid, log0) := h1
          show (runAfterGo hookName context (rest ++ b) mi >>= fun d =>
              Except.ok (d.1, l1 ++ d.2)) = Except.error e
          cases hg : runAfterGo hookName context rest mi with
          | error s =>
            rw [hg, exceptErr_bind] at h1b
            exact Except.noConfusion h1b
          | ok r2 =>
            obtain ⟨mo, l2⟩ := r2
            rw [hg, exceptOk_bind] at h1b
            dsimp only at h1b
            injection h1b with h3
            injection h3 with ha hb
            subst ha
            rw [ih mi l2 hg, exceptErr_bind]
      case neg =>
        rw [if_neg hu] at h1 ⊢
        cases hx : runAfterAttrItems context pattern
            (if strStartsWith (splitPattern pattern).2 "attributes."
             then (splitPattern pattern).2
             else "attributes." ++ (splitPattern pattern).2)
            entry.toList items with
        | error s =>
          rw [hx] at h1
          exact Except.noConfusion
            (show (Except.error s : Except String (List JVal × Log))
              = Except.ok (mid, log0) from h1)
        | ok p =>
          rw [hx] at h1
          obtain ⟨mi, l1⟩ := p
          have h1b : (runAfterGo hookName context rest mi >>= fun d =>
              Except.ok (d.1, l1 ++ d.2)) = Except.ok (mid, log0) := h1
          show (runAfterGo hookName context (rest ++ b) mi >>= fun d =>
              Except.ok (d.1, l1 ++ d.2)) = Except.error e
          cases hg : runAfterGo hookName context rest mi with
          | error s =>
            rw [hg, exceptErr_bind] at h1b
            exact Except.noConfusion h1b
          | ok r2 =>
            obtain ⟨mo, l2⟩ := r2
            rw [hg, exceptOk_bind] at h1b
            dsimp only at h1b
            injection h1b with h3
            injection h3 with ha hb
            subst ha
            rw [ih mi l2 hg, exceptErr_bind]

/-- C5 amended: the generic dispatch engines in entraid-client.ts
(`runBeforeOperations` / `runAfterOperations`) contain no catch: an error
raised by any operation the engine invokes — under an unconditional or an
attribute-conditional matched entry, at any position in the registry, at any
position in the entry's operation list, and (for the after engine) at any
element of the normalised output list — propagates to the host runtime. The
legacy `index.ts` after handlers instead catch each operation's error, log
it, and continue with the next operation. -/
theorem engines_propagate_op_errors :
    (∀ (hookName : String) (context : Ctx) (input mid mid2 : JVal) (log0 : Log)
       (pre rest : Registry) (pattern : String) (entry : OpEntry)
       (ops1 ops2 : List EngineOp) (op : EngineOp) (e : String),
      runBeforeOperations hookName pre context input = .ok (mid, log0) →
      matchesPattern hookName (splitPattern pattern).1 = true →
      ((splitPattern pattern).2 = "*" ∨ (splitPattern pattern).2 = "null" ∨
        hasAttributeCheck mid (shortAttrName (splitPattern pattern).2)
          (splitPattern pattern).2 = true) →
      entry.toList = ops1 ++ op :: ops2 →
      runBeforeEntryOps context ops1 mid = .ok mid2 →
      op context mid2 = .error e →
      runBeforeOperations hookName (pre ++ (pattern, entry) :: rest) context input
        = .error e) ∧
    (∀ (hookName : String) (context : Ctx) (output : JVal)
       (allItems i1 i2 : List JVal) (item mid2 : JVal) (m2 : Bool) (log0 : Log)
       (pre rest : Registry) (pattern : String) (entry : OpEntry)
       (ops1 ops2 : List EngineOp) (op : EngineOp) (e : String),
      (match output with | JVal.arr xs => xs | v => [v]) = allItems →
      runAfterGo hookName context pre allItems = .ok (i1 ++ item :: i2, log0) →
      matchesPattern hookName (splitPattern pattern).1 = true →
      ((((splitPattern pattern).2 = "*" ∨ (splitPattern pattern).2 = "null") ∧
         (∃ r, runAfterUncondItems context pattern entry.toList i1 = .ok r)) ∨
       (((splitPattern pattern).2 ≠ "*" ∧ (splitPattern pattern).2 ≠ "null") ∧
         jsTruthy (oget item "attributes") = true ∧
         (∃ r, runAfterAttrItems context pattern
             (if strStartsWith (splitPattern pattern).2 "attributes."
              then (splitPattern pattern).2
              else "attributes." ++ (splitPattern pattern).2)
             entry.toList i1 = .ok r))) →
      entry.toList = ops1 ++ op :: ops2 →
      runAfterItemOps context ops1 item false = .ok (mid2, m2) →
      op context mid2 = .error e →
      runAfterOperations hookName (pre ++ (pattern, entry) :: rest) context output
        = .error e) := by
  constructor
  · intro hookName context input mid mid2 log0 pre rest pattern entry
      ops1 ops2 op e hpre hm happl hsplit hops1 hop
    show runBeforeGo hookName context (pre ++ (pattern, entry) :: rest) input
      = .error e
    apply runBeforeGo_prefix_error hookName context pre _ input mid log0 e hpre
    apply runBeforeGo_entry_error hookName context pattern entry rest mid e hm happl
    rw [hsplit]
    exact runBeforeEntryOps_error_at context ops1 ops2 op mid mid2 e hops1 hop
  · intro hookName context output allItems i1 i2 item mid2 m2 log0 pre rest
      pattern entry ops1 ops2 op e hnorm hpre hm happl hsplit hops1 hop
    have hitem : runAfterItemOps context entry.toList item false = .error e := by
      rw [hsplit]
      exact runAfterItemOps_error_at context ops1 ops2 op item mid2 false m2 e hops1 hop
    have hgo : runAfterGo hookName context (pre ++ (pattern, entry) :: rest)
        allItems = .error e := by
      apply runAfterGo_prefix_error hookName context pre _ allItems
        (i1 ++ item :: i2) log0 e hpre
      apply runAfterGo_head_error hookName context pattern entry rest _ e hm
      rcases happl with ⟨hu, hex⟩ | ⟨hne, hattr, hex⟩
      · exact Or.inl ⟨hu, runAfterUncondItems_item_error context pattern
          entry.toList i1 i2 item e hex hitem⟩
      · refine Or.inr ⟨hne, runAfterAttrItems_item_error context pattern _
          entry.toList i1 i2 item e hex (by simp [hattr]) hitem⟩
    unfold runAfterOperations
    cases output with
    | undefined =>
      dsimp only at hnorm ⊢
      rw [hnorm, hgo, exceptErr_bind]
    | null =>
      dsimp only at hnorm ⊢
      rw [hnorm, hgo, exceptErr_bind]
    | str s =>
      dsimp only at hnorm ⊢
      rw [hnorm, hgo, exceptErr_bind]
    | num n =>
      dsimp only at hnorm ⊢
      rw [hnorm, hgo, exceptErr_bind]
    | bool b =>
      dsimp only at hnorm ⊢
      rw [hnorm, hgo, exceptErr_bind]
    | arr xs =>
      dsimp only at hnorm ⊢
      rw [hnorm, hgo, exceptErr_bind]
    | obj fs =>
      dsimp only at hnorm ⊢
      rw [hnorm, hgo, exceptErr_bind]

/-- C5 witness: a failing second operation of an attribute-conditional entry
placed after a successfully processed unconditional entry (before engine),
and after a skipped attribute-less element (after engine), aborts both
engines with the operation's error. -/
theorem engines_propagate_op_errors_witness :
    runBeforeOperations "beforeStdAccountUpdate"
        ([("*.*", .one noopOp)] ++
          [("beforeStdAccountUpdate.sponsors", .many [noopOp, failOp])])
        demoUpdateCtx (.obj [("attributes", .obj [("sponsors", .str "a@x")])])
      = .error "boom" ∧
    runAfterOperations "afterStdAccountUpdate"
        ([] ++ [("afterStdAccountUpdate.sponsors", .many [noopOp, failOp])])
        demoUpdateCtx
        (.arr [.obj [("identity", .str "u0")], .obj [("attributes", .obj [])]])
      = .error "boom" :=
  ⟨engines_propagate_op_errors.1 "beforeStdAccountUpdate" demoUpdateCtx
      (.obj [("attributes", .obj [("sponsors", .str "a@x")])])
      (.obj [("attributes", .obj [("sponsors", .str "a@x")])])
      (.obj [("attributes", .obj [("sponsors", .str "a@x")])])
      ["*.*"] [("*.*", .one noopOp)] []
      "beforeStdAccountUpdate.sponsors" (.many [noopOp, failOp])
      [noopOp] [] failOp "boom"
      rfl (by decide) (Or.inr (Or.inr (by decide))) rfl rfl rfl,
   engines_propagate_op_errors.2 "afterStdAccountUpdate" demoUpdateCtx
      (.arr [.obj [("identity", .str "u0")], .obj [("attributes", .obj [])]])
      [.obj [("identity", .str "u0")], .obj [("attributes", .obj [])]]
      [.obj [("identity", .str "u0")]] [] (.obj [("attributes", .obj [])])
      (.obj [("attributes", .obj [])]) false []
      [] [] "afterStdAccountUpdate.sponsors" (.many [noopOp, failOp])
      [noopOp] [] failOp "boom"
      rfl rfl (by decide)
      (Or.inr ⟨⟨by decide, by decide⟩, by decide,
        ⟨([.obj [("identity", .str "u0")]], []), rfl⟩⟩)
      rfl rfl rfl⟩

/-- C8: the sponsor list enrichment returns an absent value (`undefined`) for
zero fetched sponsors, the single `userPrincipalName` for exactly one, and
the array of `userPrincipalName`s for more than one. -/
theorem getSponsors_enrichment_shape (graph : String → List JVal) :
    (graph "u1" = [] →
      (getSponsors graph demoUpdateCtx
        (.obj [("attributes", .obj [("objectId", .str "u1")])])).1 = .undefined) ∧
    (∀ s, graph "u1" = [s] →
      (getSponsors graph demoUpdateCtx
        (.obj [("attributes", .obj [("objectId", .str "u1")])])).1
        = oget s "userPrincipalName") ∧
    (∀ s t more, graph "u1" = s :: t :: more →
      (getSponsors graph demoUpdateCtx
        (.obj [("attributes", .obj [("objectId", .str "u1")])])).1
        = .arr ((s :: t :: more).map (fun x => oget x "userPrincipalName"))) := by
  refine ⟨?_, ?_, ?_⟩
  · intro h
    simp [getSponsors, h, oget, jget, nvl, isNullish, hasFieldJ, hasField, jsTruthy]
  · intro s h
    simp [getSponsors, h, oget, jget, nvl, isNullish, hasFieldJ, hasField, jsTruthy]
  · intro s t more h
    simp [getSponsors, h, oget, jget, nvl, isNullish, hasFieldJ, hasField, jsTruthy]

/-- C8 witness: with a Graph oracle returning no sponsors, the enrichment is
`undefined`. -/
theorem getSponsors_enrichment_shape_witness :
    (getSponsors (fun _ => []) demoUpdateCtx
      (.obj [("attributes", .obj [("objectId", .str "u1")])])).1 = .undefined :=
  (getSponsors_enrichment_shape (fun _ => [])).1 rfl

/-- C9: a handler built from a registry none of whose entries' hook patterns
match the concrete hook name returns the payload unchanged (and runs no
operation). -/
theorem runBefore_no_matching_hook (hookName : String) (operations : Registry)
    (context : Ctx) (input : JVal)
    (hmatch : ∀ p ∈ operations.map Prod.fst,
      matchesPattern hookName (splitPattern p).1 = false) :
    runBeforeOperations hookName operations context input = .ok (input, []) := by
  induction operations with
  | nil => rfl
  | cons pe rest ih =>
    obtain ⟨pattern, entry⟩ := pe
    have hp : matchesPattern hookName (splitPattern pattern).1 = false :=
      hmatch pattern (by simp)
    have hrest : ∀ p ∈ rest.map Prod.fst,
        matchesPattern hookName (splitPattern p).1 = false := by
      intro p hpm
      exact hmatch p (by simp [hpm])
    show runBeforeGo hookName context ((pattern, entry) :: rest) input = .ok (input, [])
    unfold runBeforeGo
    rw [if_neg (by simp [hp])]
    exact ih hrest

/-- C9 witness: a registry keyed for before-hooks only leaves an after-hook
payload untouched. -/
theorem runBefore_no_matching_hook_witness :
    runBeforeOperations "afterStdAccountRead"
        [("beforeStdAccountUpdate.sponsors", .one noopOp),
         ("beforeStdAccountCreate.sponsors", .one noopOp)] demoUpdateCtx
        (.obj [("attributes", .obj [("sponsors", .str "a@x")])])
      = .ok (.obj [("attributes", .obj [("sponsors", .str "a@x")])], []) :=
  runBefore_no_matching_hook "afterStdAccountRead" _ demoUpdateCtx _ (by decide)

/-- Shows `pre` is a prefix of `pre ++ rest` on character lists. -/
theorem leadsWith_self_append (pre rest : List Char) :
    leadsWith pre (pre ++ rest) = true := by
  induction pre with
  | nil => rfl
  | cons c cs ih => simp [leadsWith, ih]

/-- The attribute path computed by the after engine always carries the
`attributes.` prefix. -/
theorem attributePath_starts_with_attributes (ap : String) :
    strStartsWith (if strStartsWith ap "attributes." then ap else "attributes." ++ ap)
      "attributes." = true := by
  by_cases h : strStartsWith ap "attributes." = true
  · rw [if_pos h]
    exact h
  · rw [if_neg h]
    show leadsWith ("attributes.".data) (("attributes." ++ ap).data) = true
    rw [String.data_append]
    exact leadsWith_self_append _ _

/-- The after engine skips every element lacking an attribute bag: the item
list passes through unchanged and no operation runs. -/
theorem runAfterGo_skips_all (hookName : String) (context : Ctx)
    (operations : Registry) (out : JVal)
    (hpat : ∀ p ∈ operations.map Prod.fst,
      (splitPattern p).2 ≠ "*" ∧ (splitPattern p).2 ≠ "null")
    (hattr : jsTruthy (oget out "attributes") = false) :
    runAfterGo hookName context operations [out] = .ok ([out], []) := by
  induction operations with
  | nil => rfl
  | cons pe rest ih =>
    obtain ⟨pattern, entry⟩ := pe
    have hp := hpat pattern (by simp)
    have hrest : ∀ p ∈ rest.map Prod.fst,
        (splitPattern p).2 ≠ "*" ∧ (splitPattern p).2 ≠ "null" := by
      intro p hpm
      exact hpat p (by simp [hpm])
    unfold runAfterGo
    by_cases hm : matchesPattern hookName (splitPattern pattern).1 = true
    · rw [if_pos hm, if_neg (by simp [hp.1, hp.2])]
      have hskip : runAfterAttrItems context pattern
          (if strStartsWith (splitPattern pattern).2 "attributes."
            then (splitPattern pattern).2
            else "attributes." ++ (splitPattern pattern).2) entry.toList [out]
          = .ok ([out], []) := by
        unfold runAfterAttrItems
        rw [if_pos (by
          rw [attributePath_starts_with_attributes, hattr]
          rfl)]
        rfl
      dsimp only
      rw [hskip, exceptOk_bind]
      dsimp only
      rw [ih hrest, exceptOk_bind]
      rfl
    · rw [if_neg hm]
      exact ih hrest

/-- C7: for a registry whose entries all carry non-unconditional attribute
patterns, `runAfterOperations` applied to an output object without a nested
attribute bag neither throws nor runs any operation: the object is returned
unchanged. -/
theorem runAfter_skips_output_without_attributes (hookName : String)
    (context : Ctx) (operations : Registry) (fields : Obj)
    (hpat : ∀ p ∈ operations.map Prod.fst,
      (splitPattern p).2 ≠ "*" ∧ (splitPattern p).2 ≠ "null")
    (hattr : jsTruthy (jget fields "attributes") = false) :
    runAfterOperations hookName operations context (.obj fields)
      = .ok (.obj fields, []) := by
  unfold runAfterOperations
  dsimp only
  rw [runAfterGo_skips_all hookName context operations (.obj fields) hpat hattr,
    exceptOk_bind]
  rfl

/-- C7 witness: an enable-style acknowledgement without an attribute bag
passes through the sponsors after entry untouched. -/
theorem runAfter_skips_output_without_attributes_witness :
    runAfterOperations "afterStdAccountUpdate"
        [("afterStdAccountUpdate.sponsors", .one noopOp)] demoUpdateCtx
        (.obj [("identity", .str "u1")])
      = .ok (.obj [("identity", .str "u1")], []) :=
  runAfter_skips_output_without_attributes "afterStdAccountUpdate" demoUpdateCtx
    _ _ (by decide) (by decide)

/-- C6 counterexample: a payload whose `primaryData` bag carries `sponsors`
is untouched by `stripSponsorsFromInput` (which only strips the attribute bag
and the change list), so re-running the engine's presence check on the
stripped payload still reports the attribute present. -/
theorem strip_roundtrip_primaryData_still_present :
    hasAttributeCheck
        (stripSponsorsFromInput (.obj [("primaryData", .obj [("sponsors", .str "x@y")])]))
        "sponsors" "sponsors" = true := rfl

/-- C6 amended: for every payload whose `primaryData` bag does not carry a
non-null `sponsors` entry, stripping the attribute and the change list makes
the engine's presence check (attributes under short or prefixed name,
primaryData, changes) report the attribute absent, for both registry key
spellings. -/
theorem strip_then_presence_check_absent (input : JVal)
    (hpd : isNullish (oget (oget input "primaryData") "sponsors") = true) :
    hasAttributeCheck (stripSponsorsFromInput input) "sponsors" "sponsors" = false ∧
    hasAttributeCheck (stripSponsorsFromInput input) "sponsors" "attributes.sponsors"
      = false := by
  obtain ⟨h1, h2, h3, h4⟩ := strip_spec input
  have hpd' : isNullish (oget (oget (stripSponsorsFromInput input) "primaryData")
      "sponsors") = true := by
    rw [h3 "primaryData" (by decide) (by decide)]
    exact hpd
  have hch : ∀ ap, ap = "sponsors" ∨ ap = "attributes.sponsors" →
      (match oget (stripSponsorsFromInput input) "changes" with
       | JVal.arr items =>
         items.any (fun c =>
           isStrVal (oget c "attribute") "sponsors" || isStrVal (oget c "attribute") ap)
       | _ => false) = false := by
    intro ap hap
    cases hc : oget (stripSponsorsFromInput input) "changes" with
    | arr items =>
      have hclean := h4 items hc
      simp only [List.any_eq_true, not_exists]
      rw [List.any_eq_false]
      intro c hcmem
      have := hclean c hcmem
      simp only [isSponsorsChange, Bool.or_eq_false_iff] at this
      rcases hap with rfl | rfl
      · simp [this.1]
      · simp [this.1, this.2]
    | undefined => rfl
    | null => rfl
    | str s => rfl
    | num n => rfl
    | bool b => rfl
    | obj fields => rfl
  constructor
  · unfold hasAttributeCheck
    rw [hch "sponsors" (Or.inl rfl)]
    simp [notNullish, h1, hpd']
  · unfold hasAttributeCheck
    rw [hch "attributes.sponsors" (Or.inr rfl)]
    simp [notNullish, h1, h2, hpd']

/-- C6 witness: a concrete payload carrying `sponsors` both in the attribute
bag and in the change list reports the attribute absent after stripping. -/
theorem strip_then_presence_check_absent_witness :
    isNullish (oget (oget (JVal.obj
        [("attributes", .obj [("sponsors", .str "a@x")]), ("changes", .arr [demoSetChange])])
        "primaryData") "sponsors") = true ∧
    (hasAttributeCheck (stripSponsorsFromInput (.obj
        [("attributes", .obj [("sponsors", .str "a@x")]), ("changes", .arr [demoSetChange])]))
        "sponsors" "sponsors" = false ∧
     hasAttributeCheck (stripSponsorsFromInput (.obj
        [("attributes", .obj [("sponsors", .str "a@x")]), ("changes", .arr [demoSetChange])]))
        "sponsors" "attributes.sponsors" = false) :=
  ⟨rfl, strip_then_presence_check_absent _ rfl⟩

/-- C2: on a creation-kind command (the command type carries the `create`
marker) with a present correlation key and a sponsors set-change with value
`"s@x"` (and no overriding non-null sponsors entry in the attribute bag), the
before handler makes no Graph call, returns the sanitised input with the
sponsors attribute and change entries stripped, and caches a record whose
pending change has kind set and value `"s@x"`, retrievable exactly once under
the same correlation key. -/
theorem deferred_creation_before_handler (context : Ctx) (cache : Cache)
    (k : String) (input c : JVal)
    (hcreate : isCreateCommand context = true)
    (hkey : cacheKey context = some k) (hk : k ≠ "")
    (ha1 : isNullish (oget (oget input "attributes") "sponsors") = true)
    (ha2 : isNullish (oget (oget input "attributes") "attributes.sponsors") = true)
    (hc : findSponsorsChange input = c)
    (hop : oget c "op" = attributeChangeOpSet)
    (hval : oget c "value" = JVal.str "s@x") :
    (handleSponsorUpdate context cache input).2.2 = [] ∧
    (handleSponsorUpdate context cache input).1 = stripSponsorsFromInput input ∧
    (∃ rec, (getCachedInput context (handleSponsorUpdate context cache input).2.1).1
        = some rec ∧
      rec.pendingSponsor = some ⟨attributeChangeOpSet, JVal.str "s@x"⟩) ∧
    (getCachedInput context
      (getCachedInput context (handleSponsorUpdate context cache input).2.1).2).1
      = none := by
  obtain ⟨cf, rfl⟩ := ogetObjOfDefined c "op"
    (by rw [hop]; simp [attributeChangeOpSet])
  have hval' : sponsorValue input = JVal.str "s@x" := by
    unfold sponsorValue
    rw [hc, hval]
    simp [nvl, ha1, ha2]
  have hop' : nvl (oget (JVal.obj cf) "op") attributeChangeOpSet
      = attributeChangeOpSet := by
    rw [hop]
    simp [nvl, attributeChangeOpSet, isNullish]
  have hkt : keyTruthy (some k) = true := by simp [keyTruthy, hk]
  have hmain : handleSponsorUpdate context cache input
      = (stripSponsorsFromInput input,
         cacheSet cache k
           { userId := resolvedUserId input, identity := oget input "identity",
             key := oget input "key",
             pendingSponsor := some ⟨attributeChangeOpSet, JVal.str "s@x"⟩ },
         []) := by
    unfold handleSponsorUpdate
    dsimp only
    rw [hc, hval']
    rw [if_neg (by simp [checkIsUndefined, jsTruthy])]
    rw [if_pos hcreate, hkey]
    rw [if_pos hkt, hop']
    rfl
  refine ⟨by rw [hmain], by rw [hmain],
    ⟨{ userId := resolvedUserId input, identity := oget input "identity",
       key := oget input "key",
       pendingSponsor := some ⟨attributeChangeOpSet, JVal.str "s@x"⟩ }, ?_, rfl⟩, ?_⟩
  · rw [hmain]
    show (getCachedInput context (cacheSet cache k _)).1 = _
    rw [getCachedInput_of_key _ _ _ hkey hk]
    exact cacheGet_set_self _ _ _
  · rw [hmain]
    have hi : ∀ c2 : Cache, (getCachedInput context c2).2 = cacheErase c2 k := by
      intro c2
      rw [getCachedInput_of_key _ _ _ hkey hk]
    rw [hi, getCachedInput_of_key _ _ _ hkey hk]
    exact cacheGet_erase_self _ _

/-- C2 witness: a concrete create-command invocation with key `"inv2"` and a
set-change for `"s@x"`. -/
theorem deferred_creation_before_handler_witness :
    (handleSponsorUpdate { commandType := "std:account:create", invocationId := some "inv2" }
        [] (.obj [("changes", .arr [demoSetChange])])).2.2 = [] ∧
    (handleSponsorUpdate { commandType := "std:account:create", invocationId := some "inv2" }
        [] (.obj [("changes", .arr [demoSetChange])])).1
      = stripSponsorsFromInput (.obj [("changes", .arr [demoSetChange])]) ∧
    (∃ rec, (getCachedInput
        { commandType := "std:account:create", invocationId := some "inv2" }
        (handleSponsorUpdate { commandType := "std:account:create", invocationId := some "inv2" }
          [] (.obj [("changes", .arr [demoSetChange])])).2.1).1 = some rec ∧
      rec.pendingSponsor = some ⟨attributeChangeOpSet, JVal.str "s@x"⟩) ∧
    (getCachedInput { commandType := "std:account:create", invocationId := some "inv2" }
      (getCachedInput { commandType := "std:account:create", invocationId := some "inv2" }
        (handleSponsorUpdate { commandType := "std:account:create", invocationId := some "inv2" }
          [] (.obj [("changes", .arr [demoSetChange])])).2.1).2).1 = none :=
  deferred_creation_before_handler
    { commandType := "std:account:create", invocationId := some "inv2" }
    [] "inv2" (.obj [("changes", .arr [demoSetChange])]) demoSetChange
    (by decide) rfl (by decide) rfl rfl rfl rfl rfl

/-- C10: on a non-creation command whose input carries a sponsors value or
change but from which no user id resolves (no `identity`, no `key.simple.id`,
no `attributes.objectId`), the before handler makes no Graph call and writes
no cache record, yet still returns the input with the sponsors attribute and
change entries stripped — the requested change is silently discarded. -/
theorem non_create_unresolved_user_discards_change (context : Ctx)
    (cache : Cache) (input : JVal)
    (hnc : isCreateCommand context = false)
    (hcarry : (checkIsUndefined (sponsorValue input) && !(jsTruthy (findSponsorsChange input)))
      = false)
    (huser : resolvedUserId input = JVal.undefined) :
    handleSponsorUpdate context cache input
      = (stripSponsorsFromInput input, cache, []) := by
  unfold handleSponsorUpdate
  dsimp only
  rw [if_neg (by simp [hcarry]), if_neg (by simp [hnc]), huser]
  rw [if_neg (by simp [jsTruthy]), if_neg (by simp [jsTruthy])]

/-- C10 witness: an update command with correlation key but no resolvable
user id; the sponsor set-change is dropped without any call or cache write. -/
theorem non_create_unresolved_user_discards_change_witness :
    (isCreateCommand demoUpdateCtx = false ∧
      resolvedUserId (.obj [("changes", .arr [demoSetChange])]) = JVal.undefined) ∧
    handleSponsorUpdate demoUpdateCtx [("keep", { userId := .str "u9" })]
        (.obj [("changes", .arr [demoSetChange])])
      = (stripSponsorsFromInput (.obj [("changes", .arr [demoSetChange])]),
         [("keep", { userId := .str "u9" })], []) :=
  ⟨⟨by decide, rfl⟩,
    non_create_unresolved_user_discards_change demoUpdateCtx
      [("keep", { userId := .str "u9" })] (.obj [("changes", .arr [demoSetChange])])
      (by decide) rfl rfl⟩

end EntraIdPlus
